import Mathlib

/-!
# Verification of the collaborative-canvas client reconciler

Shallow embedding of `src/client/components/CanvasBoard.jsx` (geometry
helpers, the stroke renderer, and the socket event handlers of the client
reconciler) together with the presence handling of `src/client/App.jsx`.
JavaScript numbers are modelled as exact rationals (`ℚ`); decimal literals
such as `1.1` are taken at face value.  The in-place mutation of the
`strokesRef`/`undoneRef`/`liveRef` refs is rendered as explicit state
passing on a `ClientState` record, and the side effects on the 2D context
are rendered as a list of `DrawCall` descriptions.
-/

namespace Canvas

/-- A normalized point, `{x, y}` with coordinates intended to lie in `[0,1]`. -/
structure Point where
  x : ℚ
  y : ℚ
deriving DecidableEq, Repr

/-- `const clamp01 = n => Math.min(1, Math.max(0, n))`. -/
def clamp01 (n : ℚ) : ℚ := min 1 (max 0 n)

/-- The fields of a pointer event that `toCanvasPoint` reads. -/
structure Evt where
  clientX : ℚ
  clientY : ℚ
deriving DecidableEq, Repr

/-- The fields of `canvas.getBoundingClientRect()` that the code reads. -/
structure Rect where
  left : ℚ
  top : ℚ
  width : ℚ
  height : ℚ
deriving DecidableEq, Repr

/-- Current canvas dimensions (`dimsRef.current`). -/
structure Dims where
  width : ℚ
  height : ℚ
deriving DecidableEq, Repr

/-- `toCanvasPoint`: normalize a pointer position against the canvas
rectangle, clamping each coordinate into `[0,1]`. -/
def toCanvasPoint (evt : Evt) (rect : Rect) : Point :=
  { x := clamp01 ((evt.clientX - rect.left) / rect.width)
    y := clamp01 ((evt.clientY - rect.top) / rect.height) }

/-- `scalePoint`: rescale a normalized point by the current dimensions. -/
def scalePoint (pt : Point) (dims : Dims) : Point :=
  { x := pt.x * dims.width, y := pt.y * dims.height }

/-- The tool variants appearing in the source
(`pen`, `eraser`, `line`, `rect`, `ellipse`, `text`, `image`). -/
inductive Tool where
  | pen
  | eraser
  | line
  | rect
  | ellipse
  | text
  | image
deriving DecidableEq, Repr

/-- A stroke record as it travels over the wire and sits in the committed
mirror.  Tool-specific payload fields are optional, as in the duck-typed
JavaScript objects; `seq` is the server-assigned sequence number. -/
structure Stroke where
  id : Nat
  userId : Nat := 0
  tool : Tool
  color : String := ""
  size : ℚ := 6
  text : String := ""
  src : Option String := none
  width : Option ℚ := none
  height : Option ℚ := none
  seq : Int := 0
  points : List Point := []
deriving DecidableEq, Repr

/-- `ctx.globalCompositeOperation` values used by the renderer. -/
inductive CompositeOp where
  | sourceOver
  | destinationOut
deriving DecidableEq, Repr

/-- The path/fill operation a single `drawLine` call performs. -/
inductive PathOp where
  | text (font : ℚ) (content : String) (pos : Point)
  | image (src : String) (pos : Point) (w h : ℚ)
  | rect (x y w h : ℚ)
  | ellipse (cx cy rx ry : ℚ)
  | segment (src dst : Point)
deriving DecidableEq, Repr

/-- One `drawLine` invocation, recorded as the context configuration it
installs plus the path operation it strokes/fills. -/
structure DrawCall where
  composite : CompositeOp
  lineDash : List ℚ
  strokeStyle : String
  lineWidth : ℚ
  op : PathOp
deriving DecidableEq, Repr

/-- The dash pattern `drawLine` installs for the eraser:
`[Math.max(10, size * 1.1), Math.max(6, size * 0.7)]`. -/
def eraserDash (size : ℚ) : List ℚ :=
  [max 10 (size * (11/10)), max 6 (size * (7/10))]

/-- `drawLine(ctx, stroke, from, to, imageCache)` as a pure description of
the draw call it performs.  `none` models the early returns that draw
nothing (`if (!from) return`, image without `src`).  The asynchronous
image-cache path is elided: it only defers the same `drawImage` call. -/
def drawLine (stroke : Stroke) (fromPt : Option Point) (toPt : Option Point) :
    Option DrawCall :=
  match fromPt with
  | none => none
  | some fr =>
    let target := toPt.getD fr
    let isShape := stroke.tool = .rect ∨ stroke.tool = .ellipse ∨ stroke.tool = .line
    let isText := stroke.tool = .text
    let isImage := stroke.tool = .image
    let composite :=
      if stroke.tool = .eraser then CompositeOp.destinationOut else CompositeOp.sourceOver
    let lineDash := if stroke.tool = .eraser then eraserDash stroke.size else []
    let strokeStyle :=
      if stroke.tool = .eraser then "rgba(255,255,255,0.85)" else stroke.color
    let width := if stroke.tool = .eraser then stroke.size * (16/10) else max 6 stroke.size
    if isText then
      some { composite := composite, lineDash := lineDash, strokeStyle := strokeStyle,
             lineWidth := width,
             op := .text (max 14 (stroke.size * 4)) stroke.text target }
    else if isImage then
      match stroke.src with
      | none => none
      | some src =>
        some { composite := composite, lineDash := lineDash, strokeStyle := strokeStyle,
               lineWidth := width,
               op := .image src target (stroke.width.getD 180) (stroke.height.getD 180) }
    else if isShape then
      let x := min fr.x target.x
      let y := min fr.y target.y
      let w := |target.x - fr.x|
      let h := |target.y - fr.y|
      some { composite := composite, lineDash := lineDash, strokeStyle := strokeStyle,
             lineWidth := width,
             op :=
               if stroke.tool = .rect then .rect x y w h
               else if stroke.tool = .ellipse then
                 .ellipse (x + w / 2) (y + h / 2) (w / 2) (h / 2)
               else .segment fr target }
    else
      some { composite := composite, lineDash := lineDash, strokeStyle := strokeStyle,
             lineWidth := width, op := .segment fr target }

/-- The stable ascending sort `strokes.slice().sort((a, b) => a.seq - b.seq)`
used by `replayStrokes` (insertion sort is stable, like the JS sort). -/
def sortBySeq (strokes : List Stroke) : List Stroke :=
  List.insertionSort (fun a b => a.seq ≤ b.seq) strokes

/-- The draw calls `replayStrokes` issues for one stroke: a degenerate
single-point stroke is drawn as a dot (`drawLine p p`), otherwise each pair
of consecutive points is drawn with `drawLine`. -/
def strokeCalls (stroke : Stroke) (dims : Dims) : List DrawCall :=
  match stroke.points with
  | [p] =>
    (drawLine stroke (some (scalePoint p dims)) (some (scalePoint p dims))).toList
  | pts =>
    (pts.zip pts.tail).filterMap fun pr =>
      drawLine stroke (some (scalePoint pr.1 dims)) (some (scalePoint pr.2 dims))

/-- `replayStrokes(ctx, strokes, dims, imageCache)`: clear the surface, then
draw every stroke in ascending `seq` order.  The result is the full list of
draw calls issued after the clear. -/
def replayStrokes (strokes : List Stroke) (dims : Dims) : List DrawCall :=
  (sortBySeq strokes).flatMap fun s => strokeCalls s dims

/-- A presence entry of `App.jsx`'s `users` state (`{id, name, color}`). -/
structure User where
  id : Nat
  name : String := ""
  color : String := ""
deriving DecidableEq, Repr

/-- A remote cursor entry of `cursorRef` (`{userId, name, color, x, y}`). -/
structure Cursor where
  userId : Nat
  name : String := ""
  color : String := ""
  x : ℚ := 0
  y : ℚ := 0
deriving DecidableEq, Repr

/-- The client-side state the socket handlers mutate: `strokesRef` (the
committed mirror), `undoneRef`, `liveRef` (a `Map` keyed by stroke id,
modelled as an association list of strokes), `cursorRef`, and the `users`
presence list kept by `App.jsx`. -/
structure ClientState where
  strokes : List Stroke := []
  undone : List Stroke := []
  live : List Stroke := []
  cursors : List Cursor := []
  users : List User := []
deriving DecidableEq, Repr

/-- `Map.prototype.set` on the id-keyed live map: replace the entry with the
same id, or append a new one. -/
def mapSet (m : List Stroke) (s : Stroke) : List Stroke :=
  if m.any (fun t => t.id == s.id) then
    m.map fun t => if t.id == s.id then s else t
  else
    m ++ [s]

/-- `Map.prototype.delete` on the id-keyed live map. -/
def mapDelete (m : List Stroke) (id : Nat) : List Stroke :=
  m.filter fun t => t.id != id

/-- `Map.prototype.get` on the id-keyed live map. -/
def mapGet (m : List Stroke) (id : Nat) : Option Stroke :=
  m.find? fun t => t.id == id

/-- `handleStrokeStart`: open a Live Stroke with an empty point list
(`liveRef.current.set(stroke.id, { ...stroke, points: [] })`). -/
def handleStrokeStart (stroke : Stroke) (s : ClientState) : ClientState :=
  { s with live := mapSet s.live { stroke with points := [] } }

/-- One iteration of the `pts.forEach` body of `handleStrokePoints`:
streaming tools (`pen`/`eraser`) push the point, shape tools keep
`[anchor, point]`, single-placement tools (`image`/`text`) keep `[point]`. -/
def applyLivePoint (live : Stroke) (pt : Point) : Stroke :=
  if live.tool = .pen ∨ live.tool = .eraser then
    { live with points := live.points ++ [pt] }
  else if live.tool = .line ∨ live.tool = .rect ∨ live.tool = .ellipse then
    let start := live.points.headD pt
    { live with points := [start, pt] }
  else
    { live with points := [pt] }

/-- `handleStrokePoints`: drop the batch when no Live Stroke matches the
`strokeId` (`if (!live) return`); otherwise fold the batch into the live
entry (the in-place mutation of the `Map` value is modelled by `mapSet`). -/
def handleStrokePoints (strokeId : Nat) (pts : List Point) (s : ClientState) :
    ClientState :=
  match mapGet s.live strokeId with
  | none => s
  | some live => { s with live := mapSet s.live (pts.foldl applyLivePoint live) }

/-- `handleStrokeCommit`: delete the Live Stroke, append the stroke to the
committed mirror unless its id is already present, and clear `undoneRef`. -/
def handleStrokeCommit (stroke : Stroke) (s : ClientState) : ClientState :=
  { s with
    live := mapDelete s.live stroke.id
    strokes :=
      if s.strokes.any (fun t => t.id == stroke.id) then s.strokes
      else s.strokes ++ [stroke]
    undone := [] }

/-- `handleUndo`: `findIndex` + `splice(idx, 1)` removes the first stroke
whose id matches and pushes it onto `undoneRef`; a missing id is a no-op
(`if (idx === -1) return`).  The first match is isolated with
`takeWhile`/`dropWhile`, which is exactly splice-at-findIndex. -/
def handleUndo (strokeId : Nat) (s : ClientState) : ClientState :=
  let pre := s.strokes.takeWhile fun t => t.id != strokeId
  match s.strokes.dropWhile (fun t => t.id != strokeId) with
  | [] => s
  | removed :: tail =>
    { s with strokes := pre ++ tail, undone := s.undone ++ [removed] }

/-- `handleRedo`: push the redone stroke (carrying its original `seq`) onto
the committed mirror and drop its id from `undoneRef`. -/
def handleRedo (stroke : Stroke) (s : ClientState) : ClientState :=
  { s with
    strokes := s.strokes ++ [stroke]
    undone := s.undone.filter fun t => t.id != stroke.id }

/-- `clearLocal`: empty the committed mirror, the undone stack, the live
buffer and the cursor overlay, and clear the surface.  `App.jsx` registers
no `clear` handler, so the presence list is untouched. -/
def clearLocal (s : ClientState) : ClientState :=
  { s with strokes := [], undone := [], live := [], cursors := [] }

/-- `handleClear` simply invokes `clearLocal`. -/
def handleClear (s : ClientState) : ClientState :=
  clearLocal s

/-- `App.jsx`'s `user:joined` handler: drop a stale entry with the same id,
then append the joined user. -/
def handleUserJoined (joined : User) (s : ClientState) : ClientState :=
  { s with users := (s.users.filter fun u => u.id != joined.id) ++ [joined] }

/-- `App.jsx`'s `user:left` handler. -/
def handleUserLeft (userId : Nat) (s : ClientState) : ClientState :=
  { s with users := s.users.filter fun u => u.id != userId }

/-- The messages `endStroke` may emit. -/
inductive Emit where
  | strokeEnd (strokeId : Nat)
deriving DecidableEq, Repr

/-- The closure state of the local pointer handlers (`let drawing`,
`let stroke`). -/
structure LocalDraw where
  drawing : Bool := false
  stroke : Option Stroke := none
deriving DecidableEq, Repr

/-- `endStroke`: finish the local pointer sequence.  With a shape tool and
fewer than two captured points the stroke is discarded without emitting
`stroke:end`; otherwise `stroke:end` is emitted and the stroke is parked in
the live map.  Returns the new closure state, the new live map, and the
emitted messages.  `tool` is the component's tool prop. -/
def endStroke (tool : Tool) (d : LocalDraw) (live : List Stroke) :
    LocalDraw × List Stroke × List Emit :=
  match d.stroke with
  | none => (d, live, [])
  | some stroke =>
    if d.drawing = false then (d, live, [])
    else if (tool = .line ∨ tool = .rect ∨ tool = .ellipse) ∧
        stroke.points.length < 2 then
      ({ drawing := false, stroke := none }, live, [])
    else
      ({ drawing := false, stroke := none }, mapSet live stroke,
        [.strokeEnd stroke.id])

/-- Modelled from the spec: the server-side Room Ledger of §4.1.  This
repository contains only the client; the authoritative server (commit /
undo / redo / clear, `seq` assignment) lives in the companion backend, so
its behaviour is taken from the spec's words. -/
structure Ledger where
  committed : List Stroke := []
  undone : List Stroke := []
  nextSeq : Int := 1
deriving DecidableEq, Repr

/-- Modelled from the spec: `commit(stroke) → seq` assigns the next sequence
number, appends to `committed`, clears `undone`. -/
def Ledger.commit (L : Ledger) (stroke : Stroke) : Ledger × Stroke :=
  let committedStroke := { stroke with seq := L.nextSeq }
  ({ committed := L.committed ++ [committedStroke], undone := [],
     nextSeq := L.nextSeq + 1 }, committedStroke)

/-- Modelled from the spec: `redo() → Stroke | none` pops the most recently
undone entry and re-commits it preserving its original `seq`; a no-op when
`undone` is empty. -/
def Ledger.redo (L : Ledger) : Ledger × Option Stroke :=
  match L.undone.getLast? with
  | none => (L, none)
  | some stroke =>
    ({ L with committed := L.committed ++ [stroke],
              undone := L.undone.dropLast }, some stroke)

/-- Room-state invariant of the spec: no stroke id is present in both the
committed mirror and the undone stack. -/
def idsDisjoint (s : ClientState) : Prop :=
  ∀ t ∈ s.strokes, ∀ u ∈ s.undone, t.id ≠ u.id

/-- Strict ordering of strokes by their sequence number. -/
def ltSeq (a b : Stroke) : Prop := a.seq < b.seq

/-- Sample pen stroke, `seq = 1`. -/
def strokeA : Stroke := { id := 1, tool := .pen, seq := 1, points := [⟨0, 0⟩, ⟨1, 1⟩] }

/-- Sample pen stroke, `seq = 2`. -/
def strokeB : Stroke := { id := 2, tool := .pen, seq := 2, points := [⟨0, 1⟩, ⟨1, 0⟩] }

/-- Sample pen stroke, `seq = 3`. -/
def strokeC : Stroke := { id := 3, tool := .pen, seq := 3, points := [⟨1, 1⟩] }

/-- Sample committed eraser stroke used for the replay counterexample. -/
def eraserStroke : Stroke :=
  { id := 4, tool := .eraser, size := 10, seq := 1,
    points := [⟨0, 0⟩, ⟨1/2, 1/2⟩, ⟨1, 1⟩] }

/-- Sample canvas dimensions. -/
def demoDims : Dims := ⟨100, 100⟩

/-- Sample client state: two committed strokes, one undone stroke. -/
def demoState : ClientState :=
  { strokes := [strokeA, strokeB], undone := [strokeC],
    users := [{ id := 7, name := "ann" }] }

instance : IsTotal Stroke (fun a b => a.seq ≤ b.seq) :=
  ⟨fun a b => le_total a.seq b.seq⟩

instance : IsTrans Stroke (fun a b => a.seq ≤ b.seq) :=
  ⟨fun _ _ _ hab hbc => le_trans hab hbc⟩

instance : IsAntisymm Stroke ltSeq :=
  ⟨fun _ _ hab hba => absurd hab (lt_asymm hba)⟩

end Canvas

section Smoke

example : Canvas.clamp01 (3/2) = 1 := by norm_num [Canvas.clamp01]

example :
    Canvas.drawLine { id := 1, tool := .eraser, size := 10, points := [] }
      (some ⟨0, 0⟩) (some ⟨1, 1⟩) =
    some { composite := .destinationOut, lineDash := [11, 7],
           strokeStyle := "rgba(255,255,255,0.85)", lineWidth := 16,
           op := .segment ⟨0, 0⟩ ⟨1, 1⟩ } := by
  norm_num [Canvas.drawLine, Canvas.eraserDash]
  simp

example :
    Canvas.replayStrokes
      [{ id := 1, tool := .eraser, size := 10, seq := 1,
         points := [⟨0, 0⟩, ⟨1/2, 1/2⟩] }] ⟨100, 100⟩ =
    [{ composite := .destinationOut, lineDash := [11, 7],
       strokeStyle := "rgba(255,255,255,0.85)", lineWidth := 16,
       op := .segment ⟨0, 0⟩ ⟨50, 50⟩ }] := by
  norm_num [Canvas.replayStrokes, Canvas.sortBySeq, Canvas.strokeCalls,
    Canvas.drawLine, Canvas.eraserDash, Canvas.scalePoint, List.insertionSort]
  simp
  norm_num

end Smoke

namespace Canvas

/-- If every stroke of the prefix `front` passes `p`, taking-while across
`front ++ back` keeps all of `front`. -/
lemma takeWhile_all_append (p : Stroke → Bool) (front back : List Stroke)
    (hfront : ∀ b ∈ front, p b = true) :
    (front ++ back).takeWhile p = front ++ back.takeWhile p := by
  induction front with
  | nil => simp
  | cons a rest ih =>
    have hpa : p a = true := hfront a (by simp)
    have hrest : ∀ b ∈ rest, p b = true := fun b hb => hfront b (by simp [hb])
    simp [List.takeWhile_cons, hpa, ih hrest]

/-- If every stroke of the prefix `front` passes `p`, dropping-while across
`front ++ back` discards all of `front`. -/
lemma dropWhile_all_append (p : Stroke → Bool) (front back : List Stroke)
    (hfront : ∀ b ∈ front, p b = true) :
    (front ++ back).dropWhile p = back.dropWhile p := by
  induction front with
  | nil => simp
  | cons a rest ih =>
    have hpa : p a = true := hfront a (by simp)
    have hrest : ∀ b ∈ rest, p b = true := fun b hb => hfront b (by simp [hb])
    simp [List.dropWhile_cons, hpa, ih hrest]

/-- Undo on a mirror whose matching stroke sits last: the stroke moves from
the end of the mirror onto the undone stack. -/
lemma handleUndo_last (s : ClientState) (init : List Stroke) (last : Stroke)
    (hs : s.strokes = init ++ [last])
    (hid : ∀ t ∈ init, t.id ≠ last.id) :
    handleUndo last.id s =
      { s with strokes := init, undone := s.undone ++ [last] } := by
  have hall : ∀ b ∈ init, (b.id != last.id) = true := by
    intro b hb
    simpa using hid b hb
  have htake : s.strokes.takeWhile (fun t => t.id != last.id) = init := by
    rw [hs, takeWhile_all_append _ _ _ hall]
    simp [List.takeWhile_cons]
  have hdrop : s.strokes.dropWhile (fun t => t.id != last.id) = [last] := by
    rw [hs, dropWhile_all_append _ _ _ hall]
    simp [List.dropWhile_cons]
  unfold handleUndo
  rw [htake, hdrop]
  simp

end Canvas

/-- C9: processing a `clear` event empties the committed mirror, the undone
stack and the live-stroke buffer (the handler is the same `clearLocal` on
every client, the requester included), and leaves the presence list of
online users unchanged. -/
theorem clear_resets_canvas_state_preserves_presence (s : Canvas.ClientState) :
    (Canvas.handleClear s).strokes = [] ∧ (Canvas.handleClear s).undone = [] ∧
    (Canvas.handleClear s).live = [] ∧ (Canvas.handleClear s).users = s.users := by
  simp [Canvas.handleClear, Canvas.clearLocal]

/-- C10: when the pointer sequence of a shape-tool stroke (line, rect,
ellipse) ends with fewer than two captured points, `endStroke` emits no
`stroke:end`, leaves the live map unchanged, and discards the stroke. -/
theorem shape_click_emits_no_commit (tool : Canvas.Tool) (stroke : Canvas.Stroke)
    (live : List Canvas.Stroke)
    (htool : tool = .line ∨ tool = .rect ∨ tool = .ellipse)
    (hpts : stroke.points.length < 2) :
    Canvas.endStroke tool ⟨true, some stroke⟩ live =
      ({ drawing := false, stroke := none }, live, []) := by
  simp [Canvas.endStroke, htool, hpts]

/-- C10 witness: a line-tool click that captured one point is discarded. -/
theorem shape_click_emits_no_commit_witness :
    ((Canvas.Tool.line = .line ∨ Canvas.Tool.line = .rect ∨ Canvas.Tool.line = .ellipse) ∧
      Canvas.strokeC.points.length < 2) ∧
    Canvas.endStroke .line ⟨true, some Canvas.strokeC⟩ [] =
      ({ drawing := false, stroke := none }, [], []) :=
  ⟨⟨Or.inl rfl, by decide⟩,
    shape_click_emits_no_commit .line Canvas.strokeC [] (Or.inl rfl) (by decide)⟩

/-- C3: after the client processes `stroke:commit` for any stroke, the
undone stack is empty; and on the spec-modelled Room Ledger a `redo` against
an empty undone stack is a no-op, so no `stroke:redo` follows new work. -/
theorem commit_invalidates_redo (stroke : Canvas.Stroke) (s : Canvas.ClientState)
    (L : Canvas.Ledger) (hL : L.undone = []) :
    (Canvas.handleStrokeCommit stroke s).undone = [] ∧ L.redo = (L, none) := by
  refine ⟨rfl, ?_⟩
  simp [Canvas.Ledger.redo, hL]

/-- C3 witness: committing over a state with pending redo history clears it,
and the ledger with nothing undone redoes nothing. -/
theorem commit_invalidates_redo_witness :
    ({} : Canvas.Ledger).undone = [] ∧
    ((Canvas.handleStrokeCommit Canvas.strokeB Canvas.demoState).undone = [] ∧
      Canvas.Ledger.redo {} = ({}, none)) :=
  ⟨rfl, commit_invalidates_redo Canvas.strokeB Canvas.demoState {} rfl⟩

/-- C5: processing `stroke:commit` for a stroke whose id is already in the
committed mirror leaves the mirror unchanged — the stroke still appears
exactly once. -/
theorem duplicate_commit_not_duplicated (s : Canvas.ClientState) (stroke : Canvas.Stroke)
    (h : s.strokes.countP (fun t => t.id == stroke.id) = 1) :
    (Canvas.handleStrokeCommit stroke s).strokes = s.strokes ∧
    (Canvas.handleStrokeCommit stroke s).strokes.countP (fun t => t.id == stroke.id) = 1 := by
  have hany : s.strokes.any (fun t => t.id == stroke.id) = true := by
    have hpos : 0 < s.strokes.countP (fun t => t.id == stroke.id) := by omega
    obtain ⟨a, ha, hpa⟩ := List.countP_pos_iff.mp hpos
    exact List.any_eq_true.mpr ⟨a, ha, hpa⟩
  have heq : (Canvas.handleStrokeCommit stroke s).strokes = s.strokes := by
    simp [Canvas.handleStrokeCommit, hany]
  exact ⟨heq, by rw [heq, h]⟩

/-- C5 witness: re-committing `strokeA` over a mirror already holding it
keeps the mirror intact with a single occurrence. -/
theorem duplicate_commit_not_duplicated_witness :
    Canvas.demoState.strokes.countP (fun t => t.id == Canvas.strokeA.id) = 1 ∧
    ((Canvas.handleStrokeCommit Canvas.strokeA Canvas.demoState).strokes =
        Canvas.demoState.strokes ∧
      (Canvas.handleStrokeCommit Canvas.strokeA Canvas.demoState).strokes.countP
        (fun t => t.id == Canvas.strokeA.id) = 1) :=
  ⟨by decide, duplicate_commit_not_duplicated Canvas.demoState Canvas.strokeA (by decide)⟩


/-- C7: a pointer position captured inside a `W×H` surface, normalized by
`toCanvasPoint` and rescaled by `scalePoint` against different dimensions
`W'×H'`, lands exactly at `(px/W ⬝ W', py/H ⬝ H')`. -/
theorem geometry_resolution_independence (evt : Canvas.Evt) (rect : Canvas.Rect)
    (dims : Canvas.Dims)
    (hW : 0 < rect.width) (hH : 0 < rect.height)
    (hx0 : 0 ≤ evt.clientX - rect.left) (hxW : evt.clientX - rect.left ≤ rect.width)
    (hy0 : 0 ≤ evt.clientY - rect.top) (hyH : evt.clientY - rect.top ≤ rect.height) :
    Canvas.scalePoint (Canvas.toCanvasPoint evt rect) dims =
      ⟨(evt.clientX - rect.left) / rect.width * dims.width,
       (evt.clientY - rect.top) / rect.height * dims.height⟩ := by
  have hx : Canvas.clamp01 ((evt.clientX - rect.left) / rect.width) =
      (evt.clientX - rect.left) / rect.width := by
    unfold Canvas.clamp01
    rw [max_eq_right (div_nonneg hx0 hW.le),
      min_eq_right ((div_le_one hW).mpr hxW)]
  have hy : Canvas.clamp01 ((evt.clientY - rect.top) / rect.height) =
      (evt.clientY - rect.top) / rect.height := by
    unfold Canvas.clamp01
    rw [max_eq_right (div_nonneg hy0 hH.le),
      min_eq_right ((div_le_one hH).mpr hyH)]
  simp [Canvas.scalePoint, Canvas.toCanvasPoint, hx, hy]

/-- C7 witness: the point 20px into a 100×50 surface, replayed on a 200×100
surface, lands at 40px — `20/100 ⬝ 200 = 40` and `20/50 ⬝ 100 = 40`. -/
theorem geometry_resolution_independence_witness :
    Canvas.scalePoint (Canvas.toCanvasPoint ⟨30, 40⟩ ⟨10, 20, 100, 50⟩) ⟨200, 100⟩ =
      ⟨40, 40⟩ := by
  have h := geometry_resolution_independence ⟨30, 40⟩ ⟨10, 20, 100, 50⟩ ⟨200, 100⟩
    (by norm_num) (by norm_num) (by norm_num) (by norm_num) (by norm_num) (by norm_num)
  rw [h]
  norm_num [Canvas.Point.mk.injEq]

/-- C8: out-of-sequence intents are dropped without touching any state —
`stroke:points` for a stroke id with no matching live entry and
`stroke:undo` for a stroke id absent from the committed mirror both leave
the whole client state (mirror, undone stack and live buffer) unchanged. -/
theorem out_of_sequence_intents_dropped (s : Canvas.ClientState) (sid₁ sid₂ : Nat)
    (pts : List Canvas.Point)
    (h₁ : ∀ t ∈ s.live, t.id ≠ sid₁)
    (h₂ : ∀ t ∈ s.strokes, t.id ≠ sid₂) :
    Canvas.handleStrokePoints sid₁ pts s = s ∧ Canvas.handleUndo sid₂ s = s := by
  constructor
  · have hget : Canvas.mapGet s.live sid₁ = none := by
      apply List.find?_eq_none.mpr
      intro t ht
      simpa using h₁ t ht
    simp [Canvas.handleStrokePoints, hget]
  · have hdrop : s.strokes.dropWhile (fun t => t.id != sid₂) = [] := by
      apply List.dropWhile_eq_nil_iff.mpr
      intro t ht
      simpa using h₂ t ht
    simp [Canvas.handleUndo, hdrop]

/-- C8 witness: a `stroke:points` batch for the unknown id 5 and a
`stroke:undo` for the unknown id 7 leave the demo state untouched. -/
theorem out_of_sequence_intents_dropped_witness :
    ((∀ t ∈ Canvas.demoState.live, Canvas.Stroke.id t ≠ 5) ∧
      (∀ t ∈ Canvas.demoState.strokes, Canvas.Stroke.id t ≠ 7)) ∧
    (Canvas.handleStrokePoints 5 [⟨0, 0⟩] Canvas.demoState = Canvas.demoState ∧
      Canvas.handleUndo 7 Canvas.demoState = Canvas.demoState) :=
  ⟨⟨by decide, by decide⟩,
    out_of_sequence_intents_dropped Canvas.demoState 5 7 [⟨0, 0⟩]
      (by decide) (by decide)⟩

/-- C2: with the committed mirror in its invariant shape — sorted so the
highest-`seq` stroke sits last, stroke ids unique — processing
`stroke:undo` for the highest-`seq` stroke and then `stroke:redo` for that
same stroke restores the committed mirror to its pre-undo content and
order, the original `seq` values included. -/
theorem undo_redo_restores_mirror (s : Canvas.ClientState) (init : List Canvas.Stroke)
    (last : Canvas.Stroke)
    (hs : s.strokes = init ++ [last])
    (hseq : ∀ t ∈ init, t.seq < last.seq)
    (hid : ∀ t ∈ init, t.id ≠ last.id) :
    (Canvas.handleRedo last (Canvas.handleUndo last.id s)).strokes = s.strokes := by
  clear hseq
  rw [Canvas.handleUndo_last s init last hs hid]
  simp [Canvas.handleRedo, hs]

/-- C2 witness: undoing then redoing the `seq = 2` stroke of the demo state
reproduces the original mirror `[strokeA, strokeB]`. -/
theorem undo_redo_restores_mirror_witness :
    (Canvas.demoState.strokes = [Canvas.strokeA] ++ [Canvas.strokeB] ∧
      (∀ t ∈ [Canvas.strokeA], Canvas.Stroke.seq t < Canvas.strokeB.seq) ∧
      (∀ t ∈ [Canvas.strokeA], Canvas.Stroke.id t ≠ Canvas.strokeB.id)) ∧
    (Canvas.handleRedo Canvas.strokeB
        (Canvas.handleUndo Canvas.strokeB.id Canvas.demoState)).strokes =
      Canvas.demoState.strokes :=
  ⟨⟨rfl, by decide, by decide⟩,
    undo_redo_restores_mirror Canvas.demoState [Canvas.strokeA] Canvas.strokeB rfl
      (by decide) (by decide)⟩

/-- C6: from any state satisfying the reachable-state invariants — committed
mirror and undone stack id-disjoint, committed ids unique — each of the
`stroke:commit`, `stroke:undo` and `stroke:redo` handlers yields a state in
which no stroke id is in both the committed mirror and the undone stack. -/
theorem handlers_preserve_disjointness (s : Canvas.ClientState)
    (hdis : Canvas.idsDisjoint s)
    (hnodup : (s.strokes.map Canvas.Stroke.id).Nodup) :
    (∀ stroke, Canvas.idsDisjoint (Canvas.handleStrokeCommit stroke s)) ∧
    (∀ sid, Canvas.idsDisjoint (Canvas.handleUndo sid s)) ∧
    (∀ stroke, Canvas.idsDisjoint (Canvas.handleRedo stroke s)) := by
  refine ⟨?_, ?_, ?_⟩
  · intro stroke t ht u hu
    simp [Canvas.handleStrokeCommit] at hu
  · intro sid
    unfold Canvas.idsDisjoint Canvas.handleUndo
    cases hrest : s.strokes.dropWhile (fun t => t.id != sid) with
    | nil =>
      intro t ht u hu
      exact hdis t ht u hu
    | cons removed tail =>
      intro t ht u hu
      have hsplit : s.strokes =
          s.strokes.takeWhile (fun t => t.id != sid) ++ removed :: tail := by
        rw [← hrest, List.takeWhile_append_dropWhile]
      have hrem : removed.id = sid := by
        have := List.head?_dropWhile_not (fun t => t.id != sid) s.strokes
        rw [hrest] at this
        simpa using this
      simp only at ht hu
      rcases List.mem_append.mp hu with hu' | hu'
      · have htmem : t ∈ s.strokes := by
          rw [hsplit]
          rcases List.mem_append.mp ht with h' | h'
          · exact List.mem_append.mpr (Or.inl h')
          · exact List.mem_append.mpr (Or.inr (List.mem_cons_of_mem _ h'))
        exact hdis t htmem u hu'
      · have hu'' : u = removed := by simpa using hu'
        rcases List.mem_append.mp ht with h' | h'
        · have hp := List.mem_takeWhile_imp h'
          rw [hu'', hrem]
          simpa using hp
        · have hnd := hnodup
          rw [hsplit] at hnd
          simp only [List.map_append, List.map_cons, List.nodup_append] at hnd
          have hnotin : removed.id ∉ tail.map Canvas.Stroke.id :=
            (List.nodup_cons.mp hnd.2.1).1
          rw [hu'']
          intro hcontra
          exact hnotin (hcontra ▸ List.mem_map_of_mem Canvas.Stroke.id h')
  · intro stroke t ht u hu
    simp only [Canvas.handleRedo, List.mem_append, List.mem_filter] at ht hu
    obtain ⟨humem, hufilter⟩ := hu
    have hune : u.id ≠ stroke.id := by simpa using hufilter
    rcases ht with h' | h'
    · exact hdis t h' u humem
    · have ht' : t = stroke := by simpa using h'
      subst ht'
      exact fun hcontra => hune hcontra.symm

/-- C6 witness: the demo state (ids 1,2 committed, id 3 undone) satisfies
the invariants, and undoing stroke id 1 keeps the collections disjoint. -/
theorem handlers_preserve_disjointness_witness :
    (Canvas.idsDisjoint Canvas.demoState ∧
      (Canvas.demoState.strokes.map Canvas.Stroke.id).Nodup) ∧
    Canvas.idsDisjoint (Canvas.handleUndo 1 Canvas.demoState) :=
  ⟨⟨by unfold Canvas.idsDisjoint; decide, by decide⟩,
    (handlers_preserve_disjointness Canvas.demoState
      (by unfold Canvas.idsDisjoint; decide) (by decide)).2.1 1⟩

/-- C4: `stroke:redo` appends the redone stroke carrying its original `seq`,
and since replay sorts by `seq` ascending, the rendered history places the
stroke back at its original position between its former neighbours, not at
the end. -/
theorem redo_restores_render_position (s : Canvas.ClientState)
    (pre post : List Canvas.Stroke) (stroke : Canvas.Stroke)
    (hs : s.strokes = pre ++ post)
    (hsorted : (pre ++ stroke :: post).Pairwise Canvas.ltSeq) :
    Canvas.sortBySeq (Canvas.handleRedo stroke s).strokes = pre ++ stroke :: post := by
  have hperm : (Canvas.handleRedo stroke s).strokes.Perm (pre ++ stroke :: post) := by
    have h1 : (Canvas.handleRedo stroke s).strokes = pre ++ (post ++ [stroke]) := by
      simp [Canvas.handleRedo, hs]
    rw [h1]
    exact List.Perm.append_left pre List.perm_append_comm
  have hsortperm : (Canvas.sortBySeq (Canvas.handleRedo stroke s).strokes).Perm
      (pre ++ stroke :: post) :=
    (List.perm_insertionSort _ _).trans hperm
  have hle : (Canvas.sortBySeq (Canvas.handleRedo stroke s).strokes).Pairwise
      (fun a b => a.seq ≤ b.seq) :=
    List.sorted_insertionSort _ _
  have hne_target : (pre ++ stroke :: post).Pairwise
      (fun a b : Canvas.Stroke => a.seq ≠ b.seq) :=
    hsorted.imp fun h => ne_of_lt h
  have hne : (Canvas.sortBySeq (Canvas.handleRedo stroke s).strokes).Pairwise
      (fun a b : Canvas.Stroke => a.seq ≠ b.seq) :=
    (hsortperm.pairwise_iff fun h => Ne.symm h).mpr hne_target
  have hlt : (Canvas.sortBySeq (Canvas.handleRedo stroke s).strokes).Pairwise
      Canvas.ltSeq :=
    (hle.and hne).imp fun h => lt_of_le_of_ne h.1 h.2
  exact List.eq_of_perm_of_sorted hsortperm hlt hsorted

/-- C4 witness: redoing the `seq = 2` stroke over the mirror
`[seq 1, seq 3]` renders it back in the middle: the sorted replay order is
`[strokeA, strokeB, strokeC]`, not `[strokeA, strokeC, strokeB]`. -/
theorem redo_restores_render_position_witness :
    ([Canvas.strokeA] ++ [Canvas.strokeC]).Pairwise Canvas.ltSeq ∧
    Canvas.sortBySeq
        (Canvas.handleRedo Canvas.strokeB
          { strokes := [Canvas.strokeA, Canvas.strokeC] }).strokes =
      [Canvas.strokeA] ++ Canvas.strokeB :: [Canvas.strokeC] :=
  ⟨by unfold Canvas.ltSeq; decide,
    redo_restores_render_position { strokes := [Canvas.strokeA, Canvas.strokeC] }
      [Canvas.strokeA] [Canvas.strokeC] Canvas.strokeB rfl
      (by unfold Canvas.ltSeq; decide)⟩

namespace Canvas

/-- For an eraser stroke, `drawLine` always installs destination-out
compositing and the dash pattern, in the live phase and in replay alike. -/
lemma drawLine_eraser (stroke : Stroke) (h : stroke.tool = .eraser)
    (p q : Point) :
    drawLine stroke (some p) (some q) =
      some { composite := .destinationOut, lineDash := eraserDash stroke.size,
             strokeStyle := "rgba(255,255,255,0.85)",
             lineWidth := stroke.size * (16/10), op := .segment p q } := by
  simp [drawLine, h]

end Canvas

/-- C1 counterexample: replaying the committed mirror holding one eraser
stroke (size 10, three points) issues draw calls whose dash pattern is
`[11, 7]`, which is not the empty (solid) dash — the committed replay does
apply the dash pattern, contradicting the claim that no dash is applied
outside the live preview. -/
theorem eraser_replay_dash_counterexample :
    (Canvas.replayStrokes [Canvas.eraserStroke] Canvas.demoDims).map
        Canvas.DrawCall.lineDash = [[11, 7], [11, 7]] ∧
    ([11, 7] : List ℚ) ≠ [] := by
  constructor
  · norm_num [Canvas.replayStrokes, Canvas.sortBySeq, Canvas.strokeCalls,
      Canvas.drawLine, Canvas.eraserDash, Canvas.scalePoint, List.insertionSort,
      Canvas.eraserStroke, Canvas.demoDims]
    simp
  · simp

/-- C1 (amended): for every committed eraser stroke the full replay renders
the erase as a subtractive (destination-out) stroke segment-by-segment with
the very same dash pattern as the live preview — the dashed configuration is
not a live-only affordance but is installed by the shared `drawLine` routine
in both phases (each consecutive-point pair is stroked as its own short
path, restarting the dash, which is why dense segments still look
continuous). -/
theorem eraser_replay_same_subtractive_dash (stroke : Canvas.Stroke)
    (dims : Canvas.Dims) (h : stroke.tool = .eraser) :
    (∀ p q call, Canvas.drawLine stroke (some p) (some q) = some call →
      call.composite = .destinationOut ∧
      call.lineDash = Canvas.eraserDash stroke.size) ∧
    (∀ call ∈ Canvas.strokeCalls stroke dims,
      call.composite = .destinationOut ∧
      call.lineDash = Canvas.eraserDash stroke.size) ∧
    Canvas.eraserDash stroke.size ≠ [] := by
  have key : ∀ (a b : Canvas.Point) (call : Canvas.DrawCall),
      Canvas.drawLine stroke (some a) (some b) = some call →
      call.composite = .destinationOut ∧
      call.lineDash = Canvas.eraserDash stroke.size := by
    intro a b call hc
    rw [Canvas.drawLine_eraser stroke h] at hc
    cases hc
    exact ⟨rfl, rfl⟩
  refine ⟨fun p q call hc => key p q call hc, ?_, by simp [Canvas.eraserDash]⟩
  intro call hcall
  unfold Canvas.strokeCalls at hcall
  rcases hps : stroke.points with _ | ⟨p, _ | ⟨q, rest⟩⟩
  · rw [hps] at hcall
    simp at hcall
  · rw [hps] at hcall
    simp only [Option.mem_toList, Option.mem_def] at hcall
    exact key _ _ call hcall
  · rw [hps] at hcall
    simp only at hcall
    obtain ⟨pr, hpr, hsome⟩ := List.mem_filterMap.mp hcall
    exact key _ _ call hsome

/-- C1 (amended) witness: the demo eraser stroke's replay calls all carry
destination-out compositing and the eraser dash pattern, and that dash
pattern is not empty. -/
theorem eraser_replay_same_subtractive_dash_witness :
    Canvas.eraserStroke.tool = .eraser ∧
    ((∀ call ∈ Canvas.strokeCalls Canvas.eraserStroke Canvas.demoDims,
        call.composite = .destinationOut ∧
        call.lineDash = Canvas.eraserDash Canvas.eraserStroke.size) ∧
      Canvas.eraserDash Canvas.eraserStroke.size ≠ []) :=
  ⟨rfl,
    (eraser_replay_same_subtractive_dash Canvas.eraserStroke Canvas.demoDims rfl).2⟩
